import Mathlib

/-!
Shallow embedding of `src/files.rs` from the DocManager repository.

The `Files` struct and its methods (`new`, `refresh_paths`, `refresh_display`,
`back_dir`, `enter_dir`, `goto`) are translated to Lean functions over an
explicit filesystem/database environment `Env`.  Absolute paths are modelled
as lists of components below the filesystem root.  Rust panics (`expect`,
`unwrap`) are modelled as `Except.error` carrying the panic message; every
other outcome is `Except.ok` carrying the updated `Files` state.

The breadcrumb computation of the `FileExplorer` component is embedded as a
pure function of the fixed root and the current path, mirroring the
`strip_prefix` / component-accumulation code of lines 151-162.
-/

namespace DocManager

/-- An absolute filesystem path: the list of components below the filesystem
root.  `[]` is the filesystem root `/`, which is the only path whose Rust
`Path::parent()` is `None`. -/
abbrev FsPath := List String

/-- Rust `Path::parent()` / the target of `PathBuf::pop`: drop the last
component; `none` at the filesystem root. -/
def parentPath : FsPath → Option FsPath
  | [] => none
  | a :: as => some ((a :: as).dropLast)

/-- Rust `path.to_string_lossy().to_string()` on an absolute path. -/
def pathToString (p : FsPath) : String :=
  "/" ++ String.intercalate "/" p

/-- The characters after the last dot of a character list, if it has a dot. -/
def afterLastDot : List Char → Option (List Char)
  | [] => none
  | c :: rest =>
    match afterLastDot rest with
    | some e => some e
    | none => if c = '.' then some rest else none

/-- Rust `Path::extension()` restricted to a file name: the portion after the
last `.`; `none` when there is no dot, or when the only dot is the leading
one (as in `.gitignore`). -/
def extension (name : String) : Option String :=
  match name.toList with
  | [] => none
  | c :: rest =>
    (afterLastDot (if c = '.' then rest else c :: rest)).map fun cs => String.mk cs

/-- Rust `Path::extension()` on a full path: the extension of its final
component (`Path::file_name`). -/
def pathExtension (p : FsPath) : Option String :=
  match p.getLast? with
  | some name => extension name
  | none => none

/-- A successfully opened `rusqlite::Connection` to a `database.db` file.
`hasTable` records whether the `FileAttributes` table exists (preparing the
SELECT fails when it does not); `query fn` is the list of `attribute_value`
results for `SELECT attribute_value FROM FileAttributes WHERE file_name = ?`,
in the store's native return order. -/
structure DbConn where
  hasTable : Bool
  query : String → List String

/-- The external world as seen by `Files`: directory enumeration, `is_dir`
tests, `rusqlite::Connection::open`, `fs::read_to_string`, and JSON parsing
of the attribute schema (`serde_json::from_str` into an `IndexMap` followed
by stringifying the values; `none` models malformed JSON). -/
structure Env where
  readDir : FsPath → Except String (List (Option String))
  isDir : FsPath → Bool
  dbOpen : FsPath → Option DbConn
  readFile : FsPath → Option String
  parseAttrs : String → Option (List (String × String))

/-- The `Files` struct of `src/files.rs` (lines 21-28). -/
structure Files where
  current_path : FsPath
  path_contents : List FsPath
  directories : List FsPath
  filestructs : List (List String)
  attributes : List (String × String)
  err : Option String
deriving DecidableEq

/-- The paths pushed into `path_contents` by `refresh_paths`: `entry.path()`
for each `Ok` entry of `read_dir`, i.e. the directory joined with the entry
name; `Err` entries are skipped by the `if let Ok(entry)` guard. -/
def contentsOf (P : FsPath) (entries : List (Option String)) : List FsPath :=
  entries.filterMap fun e => e.map fun n => P ++ [n]

/-- The row `refresh_display` pushes into `filestructs` for a candidate
markdown file: with an open connection, the bare file name followed by the
queried attribute values; with no connection, the single-element row holding
the full path string. -/
def rowFor (conn : Option DbConn) (p : FsPath) : List String :=
  match conn with
  | some c =>
    match p.getLast? with
    | some fn => fn :: c.query fn
    | none => []
  | none => [pathToString p]

/-- The directory/markdown branch of the `refresh_display` loop body
(lines 73-94): push directories; for `.md` files, query the store when a
connection is open (panicking via `expect` when the prepared statement
fails, i.e. when `FileAttributes` is missing) or push the lossy path string
when it is not. -/
def entryListing (env : Env) (conn : Option DbConn) (s : Files) (p : FsPath) :
    Except String Files :=
  if env.isDir p then
    Except.ok { s with directories := s.directories ++ [p] }
  else if pathExtension p = some "md" then
    match conn with
    | some c =>
      match p.getLast? with
      | some fn =>
        if c.hasTable then
          Except.ok { s with filestructs := s.filestructs ++ [(fn :: c.query fn)] }
        else
          Except.error "Failed to prepare query"
      | none => Except.error "called Option::unwrap on a None value"
    | none =>
      Except.ok { s with filestructs := s.filestructs ++ [[pathToString p]] }
  else
    Except.ok s

/-- The trailing `attributes.json` step of the `refresh_display` loop body
(lines 95-102): on every iteration, if the document reads successfully it is
parsed (panicking via `expect` on malformed JSON) and replaces `attributes`;
a read failure is silently ignored. -/
def readAttrs (env : Env) (cur : FsPath) (s : Files) : Except String Files :=
  match env.readFile (cur ++ ["attributes.json"]) with
  | some data =>
    match env.parseAttrs data with
    | some parsed => Except.ok { s with attributes := parsed }
    | none => Except.error "Failed to parse JSON"
  | none => Except.ok s

/-- One iteration of the `refresh_display` loop over `path_contents`. -/
def stepEntry (env : Env) (conn : Option DbConn) (cur : FsPath) (s : Files)
    (p : FsPath) : Except String Files :=
  (entryListing env conn s p).bind (readAttrs env cur)

/-- The `refresh_display` loop over `path_contents`. -/
def displayLoop (env : Env) (conn : Option DbConn) (cur : FsPath) :
    Files → List FsPath → Except String Files
  | s, [] => Except.ok s
  | s, p :: ps => (stepEntry env conn cur s p).bind fun t => displayLoop env conn cur t ps

/-- `Files::refresh_display` (lines 62-104): clear the display fields, open
`database.db` inside the current path, and run the loop. -/
def refresh_display (env : Env) (s : Files) : Except String Files :=
  let conn := env.dbOpen (s.current_path ++ ["database.db"])
  displayLoop env conn s.current_path
    { s with directories := [], filestructs := [], attributes := [] }
    s.path_contents

/-- `Files::refresh_paths` (lines 44-60): enumerate the current path; on
success replace `path_contents` with the `Ok` entries' paths, clear `err`,
and refresh the display; on failure set `err` to the formatted message and
leave everything else untouched. -/
def refresh_paths (env : Env) (s : Files) : Except String Files :=
  match env.readDir s.current_path with
  | Except.ok entries =>
    refresh_display env
      { s with path_contents := contentsOf s.current_path entries, err := none }
  | Except.error e =>
    Except.ok { s with err := some ("An error occurred: " ++ e) }

/-- `Files::back_dir` (lines 106-113). -/
def back_dir (env : Env) (s : Files) : Except String Files :=
  match parentPath s.current_path with
  | some parent => refresh_paths env { s with current_path := parent }
  | none =>
    Except.ok { s with err := some "Cannot go up from the current directory" }

/-- `Files::enter_dir` (lines 115-122). -/
def enter_dir (env : Env) (s : Files) (dir_id : Nat) : Except String Files :=
  match s.directories.get? dir_id with
  | some path =>
    if env.isDir path then refresh_paths env { s with current_path := path }
    else Except.ok s
  | none => Except.ok s

/-- `Files::goto` (lines 124-129). -/
def goto (env : Env) (s : Files) (path : FsPath) : Except String Files :=
  if env.isDir path then refresh_paths env { s with current_path := path }
  else Except.ok s

/-- `Files::new` (lines 31-42): start at the fixed root and refresh. -/
def Files.new (env : Env) (root : FsPath) : Except String Files :=
  refresh_paths env
    { current_path := root, path_contents := [], directories := [],
      filestructs := [], attributes := [], err := none }

/-- The navigation operations exposed by `Files`. -/
inductive NavOp where
  | goUp : NavOp
  | enter : Nat → NavOp
  | gotoAbs : FsPath → NavOp
deriving DecidableEq

/-- Dispatch one navigation operation. -/
def applyOp (env : Env) (s : Files) : NavOp → Except String Files
  | NavOp.goUp => back_dir env s
  | NavOp.enter i => enter_dir env s i
  | NavOp.gotoAbs p => goto env s p

/-- Run a sequence of navigation operations, stopping at the first panic. -/
def runOps (env : Env) : Files → List NavOp → Except String Files
  | s, [] => Except.ok s
  | s, op :: ops => (applyOp env s op).bind fun t => runOps env t ops

/-- Rust `Path::strip_prefix` on component lists: `none` models the `Err`
that the `FileExplorer` component `unwrap`s. -/
def stripComponents (base p : FsPath) : Option FsPath :=
  if base.isPrefixOf p then some (p.drop base.length) else none

/-- The breadcrumb accumulation of `FileExplorer` (lines 156-162): walk the
relative components, pairing each accumulated path with its display label. -/
def accumulateCrumbs (acc : FsPath) : List String → List (FsPath × String)
  | [] => []
  | c :: rest => (acc ++ [c], c) :: accumulateCrumbs (acc ++ [c]) rest

/-- The breadcrumb chain of `FileExplorer` (lines 151-162): pop the root to
its parent, strip that prefix from the current path (panicking on failure,
modelled as `none`), and accumulate the remaining components. -/
def breadcrumbs (root current : FsPath) : Option (List (FsPath × String)) :=
  match stripComponents root.dropLast current with
  | some rel => some (accumulateCrumbs root.dropLast rel)
  | none => none

/-- The predicate selecting candidate markdown files in the
`refresh_display` loop: not a directory, and extension exactly `md`. -/
def isMdFile (env : Env) (p : FsPath) : Bool :=
  !env.isDir p && decide (pathExtension p = some "md")

/-- `refresh_paths` specialised to a successful enumeration: the whole
result is a function of the environment, the current path and the entries. -/
def refreshAt (env : Env) (P : FsPath) (entries : List (Option String)) :
    Except String Files :=
  displayLoop env (env.dbOpen (P ++ ["database.db"])) P
    { current_path := P, path_contents := contentsOf P entries,
      directories := [], filestructs := [], attributes := [], err := none }
    (contentsOf P entries)

/-- Characterisation of one successful listing step: the frame fields are
untouched, a directory entry is appended to `directories`, and a candidate
markdown file's row is appended to `filestructs`. -/
theorem entryListing_ok {env : Env} {conn : Option DbConn} {s t : Files}
    {p : FsPath} (h : entryListing env conn s p = Except.ok t) :
    t.current_path = s.current_path ∧ t.path_contents = s.path_contents ∧
    t.err = s.err ∧ t.attributes = s.attributes ∧
    t.directories = s.directories ++ (if env.isDir p then [p] else []) ∧
    t.filestructs = s.filestructs ++
      (if isMdFile env p then [rowFor conn p] else []) := by
  unfold entryListing at h
  split at h
  next hd =>
    cases h
    simp [isMdFile, hd]
  next hd =>
    split at h
    next hmd =>
      split at h
      next c =>
        split at h
        next fn hfn =>
          split at h
          next hht =>
            cases h
            simp only [Bool.not_eq_true] at hd
            simp [isMdFile, hd, hmd, rowFor, hfn]
          next hht => simp at h
        next hfn => simp at h
      next =>
        cases h
        simp only [Bool.not_eq_true] at hd
        simp [isMdFile, hd, hmd, rowFor]
    next hmd =>
      cases h
      simp only [Bool.not_eq_true] at hd
      simp [isMdFile, hd, hmd]

/-- The attribute-schema step leaves every field but `attributes` alone. -/
theorem readAttrs_ok {env : Env} {cur : FsPath} {s t : Files}
    (h : readAttrs env cur s = Except.ok t) :
    t.current_path = s.current_path ∧ t.path_contents = s.path_contents ∧
    t.err = s.err ∧ t.directories = s.directories ∧
    t.filestructs = s.filestructs := by
  unfold readAttrs at h
  split at h
  next data hread =>
    split at h
    next parsed hparse => cases h; simp
    next hparse => simp at h
  next hread => cases h; simp

/-- Characterisation of one successful loop iteration. -/
theorem stepEntry_ok {env : Env} {conn : Option DbConn} {cur : FsPath}
    {s t : Files} {p : FsPath} (h : stepEntry env conn cur s p = Except.ok t) :
    t.current_path = s.current_path ∧ t.path_contents = s.path_contents ∧
    t.err = s.err ∧
    t.directories = s.directories ++ (if env.isDir p then [p] else []) ∧
    t.filestructs = s.filestructs ++
      (if isMdFile env p then [rowFor conn p] else []) := by
  unfold stepEntry at h
  cases hl : entryListing env conn s p with
  | error e => rw [hl] at h; simp [Except.bind] at h
  | ok u =>
    rw [hl] at h
    simp only [Except.bind] at h
    obtain ⟨hcur, hpc, herr, _, hdir, hfs⟩ := entryListing_ok hl
    obtain ⟨hcur', hpc', herr', hdir', hfs'⟩ := readAttrs_ok h
    exact ⟨hcur'.trans hcur, hpc'.trans hpc, herr'.trans herr,
      hdir'.trans hdir, hfs'.trans hfs⟩

/-- Characterisation of a successful run of the `refresh_display` loop:
directories and file rows are exactly the filtered/mapped entries, appended
in enumeration order; the frame fields are untouched. -/
theorem displayLoop_ok {env : Env} {conn : Option DbConn} {cur : FsPath} :
    ∀ {ps : List FsPath} {s t : Files},
    displayLoop env conn cur s ps = Except.ok t →
    t.current_path = s.current_path ∧ t.path_contents = s.path_contents ∧
    t.err = s.err ∧
    t.directories = s.directories ++ ps.filter (fun p => env.isDir p) ∧
    t.filestructs = s.filestructs ++
      (ps.filter (isMdFile env)).map (rowFor conn) := by
  intro ps
  induction ps with
  | nil =>
    intro s t h
    cases h
    simp [displayLoop]
  | cons p ps ih =>
    intro s t h
    unfold displayLoop at h
    cases hs : stepEntry env conn cur s p with
    | error e => rw [hs] at h; simp [Except.bind] at h
    | ok u =>
      rw [hs] at h
      simp only [Except.bind] at h
      obtain ⟨hcur, hpc, herr, hdir, hfs⟩ := stepEntry_ok hs
      obtain ⟨hcur', hpc', herr', hdir', hfs'⟩ := ih h
      refine ⟨hcur'.trans hcur, hpc'.trans hpc, herr'.trans herr, ?_, ?_⟩
      · rw [hdir', hdir, List.filter_cons]
        by_cases hd : env.isDir p
        · simp [hd]
        · simp [hd]
      · rw [hfs', hfs, List.filter_cons]
        by_cases hm : isMdFile env p
        · simp [hm]
        · simp [hm]

/-- On a successful enumeration, `refresh_paths` reduces to `refreshAt`. -/
theorem refresh_paths_eq {env : Env} {s : Files}
    {entries : List (Option String)}
    (h : env.readDir s.current_path = Except.ok entries) :
    refresh_paths env s = refreshAt env s.current_path entries := by
  unfold refresh_paths
  rw [h]
  rfl

/-- A refresh that does not panic leaves `current_path` where it was, both
on successful enumeration and on the recoverable enumeration-failure path. -/
theorem refresh_paths_current {env : Env} {s t : Files}
    (h : refresh_paths env s = Except.ok t) :
    t.current_path = s.current_path := by
  unfold refresh_paths at h
  cases hrd : env.readDir s.current_path with
  | ok entries =>
    rw [hrd] at h
    exact (displayLoop_ok h).1
  | error e =>
    rw [hrd] at h
    cases h
    rfl

/-- Full characterisation of a refresh whose enumeration succeeded: every
snapshot field is a function of the environment, the current path and the
returned entries. -/
theorem refresh_ok_fields {env : Env} {s t : Files}
    {entries : List (Option String)}
    (hrd : env.readDir s.current_path = Except.ok entries)
    (h : refresh_paths env s = Except.ok t) :
    t.current_path = s.current_path ∧
    t.path_contents = contentsOf s.current_path entries ∧
    t.err = none ∧
    t.directories =
      (contentsOf s.current_path entries).filter (fun p => env.isDir p) ∧
    t.filestructs =
      ((contentsOf s.current_path entries).filter (isMdFile env)).map
        (rowFor (env.dbOpen (s.current_path ++ ["database.db"]))) := by
  rw [refresh_paths_eq hrd] at h
  obtain ⟨hcur, hpc, herr, hdir, hfs⟩ := displayLoop_ok h
  refine ⟨hcur, hpc, herr, ?_, ?_⟩
  · simpa using hdir
  · simpa using hfs

/-- Membership in the enumerated contents: exactly the `Ok` entry names,
joined below the enumerated directory. -/
theorem mem_contentsOf {P : FsPath} {entries : List (Option String)}
    {q : FsPath} :
    q ∈ contentsOf P entries ↔ ∃ n, some n ∈ entries ∧ q = P ++ [n] := by
  simp only [contentsOf, List.mem_filterMap, Option.map_eq_some']
  constructor
  · rintro ⟨e, he, n, hn, hq⟩
    exact ⟨n, hn ▸ he, hq.symm⟩
  · rintro ⟨n, hn, hq⟩
    exact ⟨some n, hn, n, rfl, hq.symm⟩

/-- Every directory surviving a non-panicking refresh either was already in
the snapshot (enumeration failed, fields retained) or sits directly below
the refreshed path. -/
theorem refresh_dirs_below {env : Env} {s t : Files}
    (h : refresh_paths env s = Except.ok t) :
    ∀ q ∈ t.directories, q ∈ s.directories ∨ s.current_path <+: q := by
  unfold refresh_paths at h
  cases hrd : env.readDir s.current_path with
  | ok entries =>
    rw [hrd] at h
    obtain ⟨_, _, _, hdir, _⟩ := displayLoop_ok h
    intro q hq
    rw [hdir] at hq
    simp only [List.nil_append, List.mem_filter] at hq
    obtain ⟨n, _, hqn⟩ := mem_contentsOf.mp hq.1
    subst hqn
    exact Or.inr (List.prefix_append _ _)
  | error e =>
    rw [hrd] at h
    cases h
    exact fun q hq => Or.inl hq

/-- `enter_dir` preserves the invariant that the current path and every
listed directory sit at or below a fixed ancestor. -/
theorem enter_dir_inv {env : Env} {root : FsPath} {s t : Files} {i : Nat}
    (hcur : root <+: s.current_path)
    (hdirs : ∀ q ∈ s.directories, root <+: q)
    (h : enter_dir env s i = Except.ok t) :
    root <+: t.current_path ∧ ∀ q ∈ t.directories, root <+: q := by
  unfold enter_dir at h
  split at h
  next d hg =>
    have hd : root <+: d := hdirs d (List.get?_mem hg)
    split at h
    next hid =>
      have hcur' := refresh_paths_current h
      have hsub := refresh_dirs_below h
      simp only at hcur' hsub
      refine ⟨hcur' ▸ hd, fun q hq => ?_⟩
      rcases hsub q hq with hmem | hpre
      · exact hdirs q hmem
      · exact hd.trans hpre
    next hid =>
      cases h
      exact ⟨hcur, hdirs⟩
  next hg =>
    cases h
    exact ⟨hcur, hdirs⟩

/-- Running any sequence of `enter` operations keeps the current path and
all listed directories at or below a fixed ancestor. -/
theorem runOps_enter_inv {env : Env} {root : FsPath} :
    ∀ {ops : List NavOp} {s t : Files},
    root <+: s.current_path → (∀ q ∈ s.directories, root <+: q) →
    (∀ op ∈ ops, ∃ i, op = NavOp.enter i) →
    runOps env s ops = Except.ok t →
    root <+: t.current_path ∧ ∀ q ∈ t.directories, root <+: q := by
  intro ops
  induction ops with
  | nil =>
    intro s t hcur hdirs _ h
    cases h
    exact ⟨hcur, hdirs⟩
  | cons op ops ih =>
    intro s t hcur hdirs hops h
    unfold runOps at h
    obtain ⟨i, rfl⟩ := hops op (List.mem_cons_self op ops)
    cases hstep : applyOp env s (NavOp.enter i) with
    | error e => rw [hstep] at h; simp [Except.bind] at h
    | ok u =>
      rw [hstep] at h
      simp only [Except.bind] at h
      obtain ⟨hcur', hdirs'⟩ := enter_dir_inv hcur hdirs hstep
      exact ih hcur' hdirs' (fun o ho => hops o (List.mem_cons_of_mem _ ho)) h

/-- The breadcrumb accumulation never produces an empty chain from a
non-empty relative path. -/
theorem accumulateCrumbs_ne_nil {acc : FsPath} {c : String}
    {rest : List String} : accumulateCrumbs acc (c :: rest) ≠ [] := by
  simp [accumulateCrumbs]

/-- The last accumulated breadcrumb is the fully accumulated path. -/
theorem accumulateCrumbs_getLast :
    ∀ {rel : List String} {acc : FsPath}, rel ≠ [] →
    ((accumulateCrumbs acc rel).getLast?).map Prod.fst = some (acc ++ rel) := by
  intro rel
  induction rel with
  | nil => intro acc h; exact absurd rfl h
  | cons c rest ih =>
    intro acc _
    cases rest with
    | nil => simp [accumulateCrumbs]
    | cons d ds =>
      have hne : (d :: ds : List String) ≠ [] := by simp
      have hstep :
          (accumulateCrumbs acc (c :: d :: ds)).getLast? =
            (accumulateCrumbs (acc ++ [c]) (d :: ds)).getLast? := by
        simp only [accumulateCrumbs, List.getLast?_cons_cons]
      rw [hstep, ih hne]
      simp

/-- Every accumulated breadcrumb extends the starting accumulator and is a
prefix of the fully accumulated path. -/
theorem accumulateCrumbs_mem :
    ∀ {rel : List String} {acc : FsPath} {x : FsPath × String},
    x ∈ accumulateCrumbs acc rel →
    acc <+: x.1 ∧ x.1 <+: acc ++ rel := by
  intro rel
  induction rel with
  | nil => intro acc x hx; simp [accumulateCrumbs] at hx
  | cons c rest ih =>
    intro acc x hx
    rw [accumulateCrumbs] at hx
    rcases List.mem_cons.mp hx with hx | hx
    · subst hx
      exact ⟨List.prefix_append _ _, by
        rw [show acc ++ c :: rest = (acc ++ [c]) ++ rest by simp]
        exact List.prefix_append _ _⟩
    · obtain ⟨h1, h2⟩ := ih hx
      refine ⟨(List.prefix_append acc [c]).trans h1, ?_⟩
      rw [show acc ++ c :: rest = (acc ++ [c]) ++ rest by simp]
      exact h2

/-- The accumulated breadcrumbs form an ancestor chain: any earlier
breadcrumb path is a prefix of any later one. -/
theorem accumulateCrumbs_chain :
    ∀ {rel : List String} {acc : FsPath},
    (accumulateCrumbs acc rel).Pairwise (fun x y => x.1 <+: y.1) := by
  intro rel
  induction rel with
  | nil => intro acc; simp [accumulateCrumbs]
  | cons c rest ih =>
    intro acc
    show ((acc ++ [c], c) :: accumulateCrumbs (acc ++ [c]) rest).Pairwise
      (fun x y => x.1 <+: y.1)
    refine List.Pairwise.cons (fun y hy => ?_) ih
    exact (accumulateCrumbs_mem hy).1

/-- If the attribute-schema document reads successfully but fails to parse,
every loop iteration panics, so no iteration can return `ok`. -/
theorem stepEntry_fails_attrs {env : Env} {conn : Option DbConn}
    {cur : FsPath} {s : Files} {p : FsPath} {data : String}
    (hjson : env.readFile (cur ++ ["attributes.json"]) = some data)
    (hbad : env.parseAttrs data = none) :
    ∀ u, stepEntry env conn cur s p ≠ Except.ok u := by
  intro u h
  unfold stepEntry at h
  cases hl : entryListing env conn s p with
  | error e => rw [hl] at h; simp [Except.bind] at h
  | ok v =>
    rw [hl] at h
    simp only [Except.bind] at h
    unfold readAttrs at h
    split at h
    next d hd =>
      have hdd : d = data := by
        have hsome := hd.symm.trans hjson
        injection hsome
      subst hdd
      split at h
      next parsed hp => rw [hbad] at hp; exact Option.noConfusion hp
      next => simp at h
    next hd =>
      rw [hjson] at hd
      exact Option.noConfusion hd

/-- A directory whose `database.db` is absent but whose parent directory is
writable: `rusqlite::Connection::open` uses `SQLITE_OPEN_CREATE` by default,
so the open succeeds and yields a fresh, empty database with no
`FileAttributes` table; the prepared SELECT then fails. -/
def env1 : Env where
  readDir := fun p => if p = ["r"] then Except.ok [some "a.md"] else Except.error "io"
  isDir := fun _ => false
  dbOpen := fun p =>
    if p = ["r", "database.db"] then some { hasTable := false, query := fun _ => [] }
    else none
  readFile := fun _ => none
  parseAttrs := fun _ => none

/-- C1: the claim says a directory with no attribute store refreshes without
error, degrading each candidate file's row to the full path string.  The
code does not satisfy this for an absent (rather than unopenable) store:
`Connection::open` creates the missing `database.db`, the connection is
`Some`, and `conn.prepare(...).expect("Failed to prepare query")` panics
because the fresh database has no `FileAttributes` table.  Evaluating the
embedded code on a directory containing only `a.md` and no store shows the
refresh aborting with exactly that panic instead of completing. -/
theorem claim1_absent_store_panics :
    Files.new env1 ["r"] = Except.error "Failed to prepare query" := by rfl

/-- A directory holding one subdirectory plus a malformed
`attributes.json`; the relational store is unopenable. -/
def env2 : Env where
  readDir := fun p => if p = ["r"] then Except.ok [some "sub"] else Except.error "io"
  isDir := fun p => p = ["r", "sub"]
  dbOpen := fun _ => none
  readFile := fun p =>
    if p = ["r", "attributes.json"] then some "not json" else none
  parseAttrs := fun _ => none

/-- C2 counterexample: the claim says a refresh over a directory whose
`attributes.json` is malformed still completes with an empty schema.  On
the embedded code, refreshing such a directory (here with a single child
entry) aborts with the `Failed to parse JSON` panic from
`serde_json::from_str(...).expect(...)`, so the claim as stated is false. -/
theorem claim2_counterexample :
    Files.new env2 ["r"] = Except.error "Failed to parse JSON" := by rfl

/-- C2 as amended: whenever the current directory has at least one readable
entry and its `attributes.json` reads as malformed JSON, the refresh as a
whole aborts (the parse `expect` panics); the schema is not degraded to an
empty one and no recoverable error is reported.  Only a directory with no
readable entries never reaches the parse. -/
theorem claim2_amended {env : Env} {s : Files}
    {entries : List (Option String)} {data : String}
    (hrd : env.readDir s.current_path = Except.ok entries)
    (hne : contentsOf s.current_path entries ≠ [])
    (hjson : env.readFile (s.current_path ++ ["attributes.json"]) = some data)
    (hbad : env.parseAttrs data = none) :
    ∃ msg, refresh_paths env s = Except.error msg := by
  rw [refresh_paths_eq hrd]
  unfold refreshAt
  rcases hc : contentsOf s.current_path entries with _ | ⟨p, ps⟩
  · exact absurd hc hne
  · unfold displayLoop
    cases hl : stepEntry env (env.dbOpen (s.current_path ++ ["database.db"]))
        s.current_path
        { current_path := s.current_path, path_contents := p :: ps,
          directories := [], filestructs := [], attributes := [], err := none }
        p with
    | error e => exact ⟨e, rfl⟩
    | ok u => exact absurd hl (stepEntry_fails_attrs hjson hbad u)

/-- C2 witness: the amended claim applied to the concrete malformed-schema
directory of the counterexample. -/
theorem claim2_witness :
    ∃ msg,
      refresh_paths env2
        { current_path := ["r"], path_contents := [["r", "sub"]],
          directories := [], filestructs := [], attributes := [],
          err := none } = Except.error msg :=
  @claim2_amended env2
    { current_path := ["r"], path_contents := [["r", "sub"]],
      directories := [], filestructs := [], attributes := [], err := none }
    [some "sub"] "not json" rfl (by decide) rfl rfl

/-- A filesystem in which both the fixed root `/h/d/g` and its parent
`/h/d` are empty readable directories. -/
def env3 : Env where
  readDir := fun p =>
    if p = ["h", "d", "g"] then Except.ok []
    else if p = ["h", "d"] then Except.ok []
    else Except.error "io"
  isDir := fun _ => false
  dbOpen := fun _ => none
  readFile := fun _ => none
  parseAttrs := fun _ => none

/-- The fixed root used with `env3`. -/
def root3 : FsPath := ["h", "d", "g"]

/-- The snapshot after constructing the browser at `root3` under `env3`. -/
def st3 : Files :=
  { current_path := ["h", "d", "g"], path_contents := [], directories := [],
    filestructs := [], attributes := [], err := none }

/-- The snapshot after one `goUp` from `root3` under `env3`. -/
def st3b : Files :=
  { current_path := ["h", "d"], path_contents := [], directories := [],
    filestructs := [], attributes := [], err := none }

/-- C3 counterexample: the claim says `goUp()` at the fixed root leaves the
location unchanged and sets a non-empty `lastError`.  On the embedded code,
the fixed root `/h/d/g` has a parent, so `back_dir` moves the location up
to `/h/d` and leaves `err` at `none`: the root-case of the claim is false
(the `Cannot go up` branch fires only at the parentless filesystem root). -/
theorem claim3_counterexample :
    Files.new env3 root3 = Except.ok st3 ∧
    back_dir env3 st3 = Except.ok st3b ∧
    st3b.current_path ≠ root3 ∧
    st3b.err = none :=
  ⟨rfl, rfl, by decide, rfl⟩

/-- C3 as amended: `goUp()` leaves the location unchanged — touching
nothing but `err`, which it sets to the fixed non-empty message — exactly
when the location has no parent, i.e. only at the filesystem root; at any
location with a parent (including the fixed root) it moves to the
immediate parent and refreshes. -/
theorem claim3_amended (env : Env) (s : Files) :
    (parentPath s.current_path = none →
      back_dir env s =
        Except.ok { s with err := some "Cannot go up from the current directory" }) ∧
    (∀ p, parentPath s.current_path = some p →
      back_dir env s = refresh_paths env { s with current_path := p }) := by
  constructor
  · intro h
    unfold back_dir
    rw [h]
  · intro p h
    unfold back_dir
    rw [h]

/-- C3 witness: the amended claim applied at the parentless filesystem root
and at the fixed root `root3`. -/
theorem claim3_witness :
    back_dir env3
        { current_path := [], path_contents := [], directories := [],
          filestructs := [], attributes := [], err := none } =
      Except.ok
        { current_path := [], path_contents := [], directories := [],
          filestructs := [], attributes := [],
          err := some "Cannot go up from the current directory" } ∧
    back_dir env3 st3 = refresh_paths env3 { st3 with current_path := ["h", "d"] } :=
  ⟨(claim3_amended env3 _).1 rfl, (claim3_amended env3 st3).2 ["h", "d"] rfl⟩

/-- An environment whose every enumeration fails with a permission error. -/
def env5 : Env where
  readDir := fun _ => Except.error "denied"
  isDir := fun _ => false
  dbOpen := fun _ => none
  readFile := fun _ => none
  parseAttrs := fun _ => none

/-- C5: when the enumeration of the current location fails, `refresh_paths`
sets `err` to the descriptive formatted message and leaves every other
snapshot field — `current_path`, `path_contents`, `directories`,
`filestructs` (the file rows) and `attributes` (the schema) — exactly at
its previous value: the result is the old record with only `err` replaced. -/
theorem claim5_enumeration_failure_frame (env : Env) (s : Files) (e : String)
    (h : env.readDir s.current_path = Except.error e) :
    refresh_paths env s =
      Except.ok { s with err := some ("An error occurred: " ++ e) } := by
  unfold refresh_paths
  rw [h]

/-- C5 witness: a failing enumeration over a populated snapshot retains all
previously computed fields and records the message. -/
theorem claim5_witness :
    refresh_paths env5
        { current_path := ["r"], path_contents := [["r", "x"]],
          directories := [["r", "d"]], filestructs := [["f", "v"]],
          attributes := [("Status", "s")], err := none } =
      Except.ok
        { current_path := ["r"], path_contents := [["r", "x"]],
          directories := [["r", "d"]], filestructs := [["f", "v"]],
          attributes := [("Status", "s")],
          err := some "An error occurred: denied" } :=
  claim5_enumeration_failure_frame env5 _ "denied" rfl

/-- C4 counterexample: the claim says no navigation sequence from the fixed
root ever moves the location above the root.  Under `env3`, starting from
the freshly constructed browser at the fixed root `/h/d/g`, the single
operation `goUp` yields the location `/h/d`, which is not at or below the
root: `back_dir` bounds navigation only by the parentless filesystem root,
not by the fixed root. -/
theorem claim4_counterexample :
    Files.new env3 root3 = Except.ok st3 ∧
    runOps env3 st3 [NavOp.goUp] = Except.ok st3b ∧
    ¬ root3 <+: st3b.current_path :=
  ⟨rfl, rfl, by decide⟩

/-- C4 as amended: for every sequence consisting only of `enter`
operations, starting from the freshly constructed browser at the fixed
root, the location stays a descendant-or-equal of the root.  The original
claim fails for sequences containing `goUp` (which at the root moves to the
root's parent, see the counterexample) and for `gotoAbsolute` (which jumps
to an arbitrary directory argument). -/
theorem claim4_amended (env : Env) (root : FsPath) (s t : Files)
    (ops : List NavOp)
    (hnew : Files.new env root = Except.ok s)
    (hops : ∀ op ∈ ops, ∃ i, op = NavOp.enter i)
    (hrun : runOps env s ops = Except.ok t) :
    root <+: t.current_path := by
  unfold Files.new at hnew
  have h1 : s.current_path = root := refresh_paths_current hnew
  have hcur : root <+: s.current_path := by rw [h1]
  have hdirs : ∀ q ∈ s.directories, root <+: q := by
    intro q hq
    rcases refresh_dirs_below hnew q hq with hmem | hpre
    · simp at hmem
    · exact hpre
  exact (runOps_enter_inv hcur hdirs hops hrun).1

/-- A root directory `/r` with a single subdirectory `/r/s`, used to
witness the amended navigation invariant. -/
def env4 : Env where
  readDir := fun p =>
    if p = ["r"] then Except.ok [some "s"]
    else if p = ["r", "s"] then Except.ok []
    else Except.error "io"
  isDir := fun p => p = ["r", "s"]
  dbOpen := fun _ => none
  readFile := fun _ => none
  parseAttrs := fun _ => none

/-- The snapshot after constructing the browser at `/r` under `env4`. -/
def st4 : Files :=
  { current_path := ["r"], path_contents := [["r", "s"]],
    directories := [["r", "s"]], filestructs := [], attributes := [],
    err := none }

/-- The snapshot after `enter 0` from `st4` under `env4`. -/
def st4b : Files :=
  { current_path := ["r", "s"], path_contents := [], directories := [],
    filestructs := [], attributes := [], err := none }

/-- C4 witness: the amended invariant applied to a concrete `enter`-only
run. -/
theorem claim4_witness : ["r"] <+: st4b.current_path :=
  claim4_amended env4 ["r"] st4 st4b [NavOp.enter 0] rfl
    (by
      intro op hop
      rw [List.mem_singleton] at hop
      exact ⟨0, hop⟩)
    rfl

/-- C6 counterexample: the claim says every reachable directory has a
non-empty breadcrumb chain ending at itself.  The root's parent `/h/d` is
reachable — one `goUp` from the freshly constructed browser at the fixed
root `/h/d/g` lands there — yet the breadcrumb computation for it yields
the empty chain, which has no last element equal to the location. -/
theorem claim6_counterexample :
    Files.new env3 root3 = Except.ok st3 ∧
    back_dir env3 st3 = Except.ok st3b ∧
    breadcrumbs root3 st3b.current_path = some [] :=
  ⟨rfl, rfl, rfl⟩

/-- C6 as amended: for every directory D at or below the (non-empty) fixed
root, the breadcrumb chain computed from D is defined and non-empty, its
last entry's path is D, every entry's path is an ancestor-or-self of D,
the entries are in ancestor order (each earlier path a prefix of each
later one, i.e. root-to-D order), and the first entry is the root itself.
For the root's parent — reachable via `goUp` — the chain is instead empty,
and for locations outside the root's parent subtree the `strip_prefix`
unwrap panics. -/
theorem claim6_amended (root D : FsPath) (hroot : root ≠ [])
    (hpre : root <+: D) :
    ∃ l, breadcrumbs root D = some l ∧ l ≠ [] ∧
      (l.getLast?).map Prod.fst = some D ∧
      (∀ x ∈ l, x.1 <+: D) ∧
      l.Pairwise (fun x y => x.1 <+: y.1) ∧
      (l.head?).map Prod.fst = some root := by
  obtain ⟨tail, rfl⟩ := hpre
  have hsplit : root.dropLast ++ [root.getLast hroot] = root :=
    List.dropLast_concat_getLast hroot
  have hD : root ++ tail = root.dropLast ++ (root.getLast hroot :: tail) := by
    conv_lhs => rw [← hsplit]
    simp
  have hstrip : stripComponents root.dropLast (root ++ tail) =
      some (root.getLast hroot :: tail) := by
    unfold stripComponents
    have hbp : root.dropLast.isPrefixOf (root ++ tail) = true := by
      rw [ List.isPrefixOf_iff_prefix, hD]
      exact List.prefix_append _ _
    rw [if_pos hbp, hD, List.drop_left]
  refine ⟨accumulateCrumbs root.dropLast (root.getLast hroot :: tail),
    ?_, accumulateCrumbs_ne_nil, ?_, ?_, accumulateCrumbs_chain, ?_⟩
  · unfold breadcrumbs
    rw [hstrip]
  · rw [accumulateCrumbs_getLast (by simp), ← hD]
  · intro x hx
    have hx2 := (accumulateCrumbs_mem hx).2
    rw [← hD] at hx2
    exact hx2
  · show ((accumulateCrumbs root.dropLast
      (root.getLast hroot :: tail)).head?).map Prod.fst = some root
    simp [accumulateCrumbs, hsplit]

/-- C6 witness: the amended breadcrumb property at the concrete root `/r`
and directory `/r/a`. -/
theorem claim6_witness :
    ∃ l, breadcrumbs ["r"] ["r", "a"] = some l ∧ l ≠ [] ∧
      (l.getLast?).map Prod.fst = some ["r", "a"] ∧
      (∀ x ∈ l, x.1 <+: ["r", "a"]) ∧
      l.Pairwise (fun x y => x.1 <+: y.1) ∧
      (l.head?).map Prod.fst = some ["r"] :=
  claim6_amended ["r"] ["r", "a"] (by decide) ⟨["a"], rfl⟩

/-- The parent of a path one component below `P` is `P` itself. -/
theorem parentPath_concat (P : FsPath) (n : String) :
    parentPath (P ++ [n]) = some P := by
  cases P with
  | nil => rfl
  | cons a as =>
    show some ((a :: (as ++ [n])).dropLast) = some (a :: as)
    rw [show a :: (as ++ [n]) = (a :: as) ++ [n] from rfl, List.dropLast_concat]

/-- A root directory `/r` containing a markdown file, a text file and a
subdirectory, with no attribute store and no schema document. -/
def env7 : Env where
  readDir := fun p =>
    if p = ["r"] then Except.ok [some "a.md", some "notes.txt", some "sub"]
    else Except.error "io"
  isDir := fun p => p = ["r", "sub"]
  dbOpen := fun _ => none
  readFile := fun _ => none
  parseAttrs := fun _ => none

/-- The entry listing `env7` returns at `/r`. -/
def entries7 : List (Option String) := [some "a.md", some "notes.txt", some "sub"]

/-- The blank state at `/r` that `claim7_witness` refreshes. -/
def st7 : Files :=
  { current_path := ["r"], path_contents := [], directories := [],
    filestructs := [], attributes := [], err := none }

/-- The snapshot after refreshing `st7` under `env7`: `notes.txt` appears
neither among the directories nor among the file rows. -/
def t7 : Files :=
  { current_path := ["r"],
    path_contents := [["r", "a.md"], ["r", "notes.txt"], ["r", "sub"]],
    directories := [["r", "sub"]], filestructs := [["/r/a.md"]],
    attributes := [], err := none }

/-- C7: after a refresh whose enumeration succeeded, `directories` is
exactly the child entries that are directories and `filestructs` is exactly
the rows of the non-directory children whose extension is `md`
(case-sensitively), in enumeration order; no `lastError` is set, and any
non-directory child with a different extension is in particular absent from
`directories` (and, by the `filestructs` equation, contributes no file
row). -/
theorem claim7_md_filter (env : Env) (s t : Files)
    (entries : List (Option String))
    (hrd : env.readDir s.current_path = Except.ok entries)
    (hok : refresh_paths env s = Except.ok t) :
    t.err = none ∧
    t.directories =
      (contentsOf s.current_path entries).filter (fun p => env.isDir p) ∧
    t.filestructs =
      ((contentsOf s.current_path entries).filter (isMdFile env)).map
        (rowFor (env.dbOpen (s.current_path ++ ["database.db"]))) ∧
    ∀ p ∈ contentsOf s.current_path entries, env.isDir p = false →
      pathExtension p ≠ some "md" → p ∉ t.directories := by
  obtain ⟨hcur, hpc, herr, hdir, hfs⟩ := refresh_ok_fields hrd hok
  refine ⟨herr, hdir, hfs, ?_⟩
  intro p hp hnd hne hmem
  rw [hdir, List.mem_filter, hnd] at hmem
  exact absurd hmem.2 (by simp)

/-- C7 witness: refreshing the concrete directory of `env7` lists only the
subdirectory among directories and only the markdown file among rows; the
text file appears nowhere. -/
theorem claim7_witness :
    t7.err = none ∧
    t7.directories =
      (contentsOf ["r"] entries7).filter (fun p => env7.isDir p) ∧
    t7.filestructs =
      ((contentsOf ["r"] entries7).filter (isMdFile env7)).map
        (rowFor (env7.dbOpen (["r"] ++ ["database.db"]))) ∧
    ∀ p ∈ contentsOf ["r"] entries7, env7.isDir p = false →
      pathExtension p ≠ some "md" → p ∉ t7.directories :=
  claim7_md_filter env7 st7 t7 entries7 rfl rfl

/-- The relational store used by `env8`: the `FileAttributes` table holds
two values under the key `a.md`, returned in the order `x`, `y`. -/
def conn8 : DbConn :=
  { hasTable := true, query := fun fn => if fn = "a.md" then ["x", "y"] else [] }

/-- A root directory `/r` containing `a.md` and an open store `conn8`. -/
def env8 : Env where
  readDir := fun p =>
    if p = ["r"] then Except.ok [some "a.md"] else Except.error "io"
  isDir := fun _ => false
  dbOpen := fun p => if p = ["r", "database.db"] then some conn8 else none
  readFile := fun _ => none
  parseAttrs := fun _ => none

/-- The blank state at `/r` that `claim8_witness` refreshes. -/
def st8 : Files :=
  { current_path := ["r"], path_contents := [], directories := [],
    filestructs := [], attributes := [], err := none }

/-- The snapshot after refreshing `st8` under `env8`. -/
def t8 : Files :=
  { current_path := ["r"], path_contents := [["r", "a.md"]],
    directories := [], filestructs := [["a.md", "x", "y"]],
    attributes := [], err := none }

/-- C8: when the store is open and the listing contains the candidate
markdown file `fn`, the merged row is exactly `fn` followed by the store's
query results for `fn`, concatenated verbatim in the store's native return
order — the code appends each fetched row in iteration order and performs
no sorting. -/
theorem claim8_store_order (env : Env) (s t : Files)
    (entries : List (Option String)) (conn : DbConn) (fn : String)
    (hrd : env.readDir s.current_path = Except.ok entries)
    (hok : refresh_paths env s = Except.ok t)
    (hconn : env.dbOpen (s.current_path ++ ["database.db"]) = some conn)
    (hmem : some fn ∈ entries)
    (hnd : env.isDir (s.current_path ++ [fn]) = false)
    (hmd : extension fn = some "md") :
    (fn :: conn.query fn) ∈ t.filestructs := by
  obtain ⟨_, _, _, _, hfs⟩ := refresh_ok_fields hrd hok
  rw [hfs, hconn]
  have hpe : pathExtension (s.current_path ++ [fn]) = some "md" := by
    unfold pathExtension
    rw [List.getLast?_concat]
    exact hmd
  have hmemc : s.current_path ++ [fn] ∈ contentsOf s.current_path entries :=
    mem_contentsOf.mpr ⟨fn, hmem, rfl⟩
  have hfl : s.current_path ++ [fn] ∈
      (contentsOf s.current_path entries).filter (isMdFile env) := by
    rw [List.mem_filter]
    exact ⟨hmemc, by simp [isMdFile, hnd, hpe]⟩
  have hrow : rowFor (some conn) (s.current_path ++ [fn]) = fn :: conn.query fn := by
    unfold rowFor
    rw [List.getLast?_concat]
  rw [← hrow]
  exact List.mem_map_of_mem _ hfl

/-- C8 witness: with the store of `conn8` holding `x` then `y` under
`a.md`, the merged row is `a.md, x, y` in that order. -/
theorem claim8_witness : (["a.md", "x", "y"] : List String) ∈ t8.filestructs :=
  claim8_store_order env8 st8 t8 [some "a.md"] conn8 "a.md"
    rfl rfl rfl (by decide) rfl rfl

/-- C9: from a snapshot `s₀` produced by a successful refresh at some
location, entering any listed directory (valid index `i`) and then going
up returns the browser to exactly the state `s₀`: the location is back at
the original directory and every snapshot field — directories, file rows,
attribute schema, listing contents and error — is identical, because the
refresh recomputes them deterministically from the unchanged filesystem. -/
theorem claim9_roundtrip (env : Env) (s s₀ s₁ : Files)
    (entries : List (Option String)) (i : Nat) (d : FsPath)
    (hrd : env.readDir s.current_path = Except.ok entries)
    (hfresh : refresh_paths env s = Except.ok s₀)
    (hi : s₀.directories.get? i = some d)
    (henter : enter_dir env s₀ i = Except.ok s₁) :
    back_dir env s₁ = Except.ok s₀ := by
  obtain ⟨hcur, hpc, herr, hdir, hfs⟩ := refresh_ok_fields hrd hfresh
  have hdmem : d ∈ s₀.directories := List.get?_mem hi
  rw [hdir, List.mem_filter] at hdmem
  obtain ⟨n, hn, hdn⟩ := mem_contentsOf.mp hdmem.1
  have hisdir : env.isDir d = true := hdmem.2
  have he : enter_dir env s₀ i =
      refresh_paths env { s₀ with current_path := d } := by
    unfold enter_dir
    rw [hi]
    simp [hisdir]
  rw [he] at henter
  have h1 : s₁.current_path = d := refresh_paths_current henter
  have hparent : parentPath s₁.current_path = some s.current_path := by
    rw [h1, hdn]
    exact parentPath_concat _ _
  unfold back_dir
  rw [hparent]
  show refresh_paths env { s₁ with current_path := s.current_path } =
    Except.ok s₀
  have hrd' : env.readDir
      ({ s₁ with current_path := s.current_path } : Files).current_path =
      Except.ok entries := hrd
  rw [refresh_paths_eq hrd']
  rw [refresh_paths_eq hrd] at hfresh
  exact hfresh

/-- A root directory `/r` with one empty subdirectory `/r/sub`. -/
def env9 : Env where
  readDir := fun p =>
    if p = ["r"] then Except.ok [some "sub"]
    else if p = ["r", "sub"] then Except.ok []
    else Except.error "io"
  isDir := fun p => p = ["r", "sub"]
  dbOpen := fun _ => none
  readFile := fun _ => none
  parseAttrs := fun _ => none

/-- The blank state at `/r` whose refresh produces `st9`. -/
def st9blank : Files :=
  { current_path := ["r"], path_contents := [], directories := [],
    filestructs := [], attributes := [], err := none }

/-- The snapshot at `/r` under `env9` before entering the subdirectory. -/
def st9 : Files :=
  { current_path := ["r"], path_contents := [["r", "sub"]],
    directories := [["r", "sub"]], filestructs := [], attributes := [],
    err := none }

/-- The snapshot after `enter 0` from `st9` under `env9`. -/
def st9b : Files :=
  { current_path := ["r", "sub"], path_contents := [], directories := [],
    filestructs := [], attributes := [], err := none }

/-- C9 witness: entering `/r/sub` and going back up restores the exact
pre-enter snapshot. -/
theorem claim9_witness : back_dir env9 st9b = Except.ok st9 :=
  claim9_roundtrip env9 st9blank st9 st9b [some "sub"] 0 ["r", "sub"]
    rfl rfl rfl rfl

/-- Dropping the `Err` entries from an enumeration leaves the computed
contents unchanged. -/
theorem contentsOf_filter {P : FsPath} :
    ∀ {entries : List (Option String)},
    contentsOf P (entries.filter (fun e => e.isSome)) = contentsOf P entries := by
  intro entries
  induction entries with
  | nil => rfl
  | cons e es ih =>
    cases e with
    | none => simpa [contentsOf, List.filter_cons, List.filterMap_cons] using ih
    | some n => simpa [contentsOf, List.filter_cons, List.filterMap_cons] using ih

/-- The computed contents are the `Ok` entry names joined below the
directory. -/
theorem contentsOf_eq_map {P : FsPath} :
    ∀ {entries : List (Option String)},
    contentsOf P entries = (entries.filterMap id).map (fun n => P ++ [n]) := by
  intro entries
  induction entries with
  | nil => rfl
  | cons e es ih =>
    cases e with
    | none => simpa [contentsOf, List.filterMap_cons] using ih
    | some n => simpa [contentsOf, List.filterMap_cons] using ih

/-- C10: a child entry whose per-entry enumeration result is an error is
silently skipped — the refresh is identical to one over the `Ok` entries
alone (so the erroneous entry reaches neither `directories` nor
`filestructs` and cannot abort the remaining entries), the surviving
listing is exactly the `Ok` entries' paths, and `err` is left clear. -/
theorem claim10_err_entries_skipped (env : Env) (s t : Files)
    (entries : List (Option String))
    (hrd : env.readDir s.current_path = Except.ok entries)
    (hok : refresh_paths env s = Except.ok t) :
    refresh_paths env s =
      refreshAt env s.current_path (entries.filter (fun e => e.isSome)) ∧
    t.err = none ∧
    t.path_contents = (entries.filterMap id).map (fun n => s.current_path ++ [n]) := by
  obtain ⟨hcur, hpc, herr, hdir, hfs⟩ := refresh_ok_fields hrd hok
  refine ⟨?_, herr, ?_⟩
  · rw [refresh_paths_eq hrd]
    unfold refreshAt
    rw [contentsOf_filter]
  · rw [hpc, contentsOf_eq_map]

/-- A root directory `/r` whose enumeration yields one `Err` entry followed
by one `Ok` entry named `a`. -/
def env10 : Env where
  readDir := fun p =>
    if p = ["r"] then Except.ok [none, some "a"] else Except.error "io"
  isDir := fun _ => false
  dbOpen := fun _ => none
  readFile := fun _ => none
  parseAttrs := fun _ => none

/-- The blank state at `/r` that `claim10_witness` refreshes. -/
def st10 : Files :=
  { current_path := ["r"], path_contents := [], directories := [],
    filestructs := [], attributes := [], err := none }

/-- The snapshot after refreshing `st10` under `env10`: only the `Ok`
entry survives. -/
def t10 : Files :=
  { current_path := ["r"], path_contents := [["r", "a"]], directories := [],
    filestructs := [], attributes := [], err := none }

/-- C10 witness: the concrete refresh under `env10` skips the `Err` entry,
keeps `err` clear, and lists only `/r/a`. -/
theorem claim10_witness :
    refresh_paths env10 st10 =
      refreshAt env10 ["r"] ([none, some "a"].filter (fun e => e.isSome)) ∧
    t10.err = none ∧
    t10.path_contents = ([none, some "a"].filterMap id).map (fun n => ["r"] ++ [n]) :=
  claim10_err_entries_skipped env10 st10 t10 [none, some "a"] rfl rfl

end DocManager
